import Mathlib

/-!
Verification of the fireline consolidation and engagement-classification
engine of `xbuild/qaqc.py` (class `FLE_QAQC`) together with the anomaly-flag
logic of `Tool/4_FLEMetrics.py`.

Geometric primitives (buffer, union, difference, clip) are the trusted
library layer of the source (shapely / geopandas).  Following that trust
boundary, a point of the plane is represented here by the two quantities
those primitives act on in `_label_control`:

* `inside : Bool` — whether the point lies in the (closed) fire-perimeter
  polygon `pgeo`;
* `bdist : ℚ` — the distance from the point to the perimeter boundary
  `pgeo.boundary` (a nonnegative quantity).

Under this representation the trusted primitives have their textbook
semantics: `pgeo.boundary.buffer(d)` is the set of points with
`bdist ≤ d` (closed buffer, both sides of the boundary),
`difference` is set difference and `union` is set union.
-/

/-- A point of the plane with exact rational coordinates. -/
abbrev Pt := ℚ × ℚ

/-- Squared Euclidean distance between two points (exact in `ℚ`;
the source's Euclidean distance is its square root). -/
def dist2 (p q : Pt) : ℚ := (q.1 - p.1) ^ 2 + (q.2 - p.2) ^ 2

/-- Membership in the perimeter polygon `pgeo`
(`_label_control`, qaqc.py line 313): the point's side flag. -/
def pgeoMem (inside : Bool) : Bool := inside

/-- Membership in `hbuff = pgeo.boundary.buffer(perm_dist)`
(qaqc.py line 314): all points within distance `d` of the perimeter
boundary, on either side.  `h_lines = df.clip(hbuff)` is labeled
`Held` (lines 317, 321). -/
def hbuffMem (bdist d : ℚ) : Bool := decide (bdist ≤ d)

/-- Membership in `bbuff = pgeo.difference(hbuff)` (qaqc.py line 315):
the perimeter region minus the boundary band.  `b_lines = df.clip(bbuff)`
is labeled `Burnt Over` (lines 318, 322). -/
def bbuffMem (inside : Bool) (bdist d : ℚ) : Bool :=
  pgeoMem inside && !(hbuffMem bdist d)

/-- Membership in `nbuff = bbuff.union(hbuff)` (qaqc.py line 316). -/
def nbuffMem (inside : Bool) (bdist d : ℚ) : Bool :=
  bbuffMem inside bdist d || hbuffMem bdist d

/-- Membership in the remainder zone: `n_lines = df.overlay(nbuff,
how='difference')` (qaqc.py line 320), labeled `Not Engaged` (line 323). -/
def notEngagedMem (inside : Bool) (bdist d : ℚ) : Bool :=
  !(nbuffMem inside bdist d)

/-- Modelled from the spec (refinement comparison only): the spec's
`heldZone` = "area within the perimeter whose boundary distance is ≤ d on
the interior side". -/
def specHeldZone (inside : Bool) (bdist d : ℚ) : Bool :=
  inside && decide (bdist ≤ d)

/-- Modelled from the spec (refinement comparison only): the spec's
`burnedOverZone` = "area outside the perimeter whose boundary distance is
≤ d on the exterior side". -/
def specBurnedOverZone (inside : Bool) (bdist d : ℚ) : Bool :=
  !inside && decide (bdist ≤ d)

/-- One elementary piece of a consolidated control line.  Clipping
splits a polyline wherever it crosses a zone boundary, so after the
splits performed by `_label_control` each piece lies entirely on one
side of the perimeter at boundary distance on one side of `d`; the
piece records that position data together with its length. -/
structure Piece where
  inside : Bool
  bdist : ℚ
  len : ℚ
  deriving DecidableEq

/-- `_label_control(df, pgeo, perm_dist)` (qaqc.py lines 313-324):
clip the line pieces against `hbuff`, `bbuff` and the complement of
`nbuff`, tag the three results `Held` / `Burnt Over` / `Not Engaged`,
and concatenate.  Each output row is `(FirelineEngagement, length)`. -/
def label_control (pcs : List Piece) (d : ℚ) : List (String × ℚ) :=
  ((pcs.filter fun p => hbuffMem p.bdist d).map fun p => ("Held", p.len))
    ++ ((pcs.filter fun p => bbuffMem p.inside p.bdist d).map fun p => ("Burnt Over", p.len))
    ++ ((pcs.filter fun p => notEngagedMem p.inside p.bdist d).map fun p => ("Not Engaged", p.len))

/-- Total length of a list of labeled rows (`df.length.sum()`). -/
def lensum (rows : List (String × ℚ)) : ℚ := (rows.map fun r => r.2).sum

/-- Total length of a list of pieces. -/
def pieceLenSum (pcs : List Piece) : ℚ := (pcs.map fun p => p.len).sum

/-- Sum of the lengths of the rows carrying exactly the given
engagement label. -/
def lblSum (rows : List (String × ℚ)) (lbl : String) : ℚ :=
  lensum (rows.filter fun r => r.1 == lbl)

/-- The three zone indicators sum to one at every point. -/
theorem zones_exactly_one (inside : Bool) (bdist d : ℚ) :
    (hbuffMem bdist d).toNat + (bbuffMem inside bdist d).toNat
      + (notEngagedMem inside bdist d).toNat = 1 := by
  rcases le_or_lt bdist d with h | h
  · cases inside <;>
      simp [hbuffMem, bbuffMem, notEngagedMem, nbuffMem, pgeoMem, h]
  · cases inside <;>
      simp [hbuffMem, bbuffMem, notEngagedMem, nbuffMem, pgeoMem, not_le.mpr h]

/-- Zone filters split the total piece length. -/
theorem filter_three_len (pcs : List Piece) (d : ℚ) :
    pieceLenSum (pcs.filter fun p => hbuffMem p.bdist d)
      + pieceLenSum (pcs.filter fun p => bbuffMem p.inside p.bdist d)
      + pieceLenSum (pcs.filter fun p => notEngagedMem p.inside p.bdist d)
      = pieceLenSum pcs := by
  induction pcs with
  | nil => simp [pieceLenSum]
  | cons p ps ih =>
    rcases le_or_lt p.bdist d with h | h
    · cases hi : p.inside <;>
        simp [pieceLenSum, List.filter_cons, hbuffMem, bbuffMem, notEngagedMem,
          nbuffMem, pgeoMem, h, hi] at ih ⊢ <;> linarith
    · cases hi : p.inside <;>
        simp [pieceLenSum, List.filter_cons, hbuffMem, bbuffMem, notEngagedMem,
          nbuffMem, pgeoMem, not_le.mpr h, hi] at ih ⊢ <;> linarith

/-- The labeled rows of `_label_control` have the same total length as the
pieces that went in. -/
theorem lensum_label_control (pcs : List Piece) (d : ℚ) :
    lensum (label_control pcs d) = pieceLenSum pcs := by
  have h3 := filter_three_len pcs d
  simp [label_control, lensum, pieceLenSum, List.map_map, Function.comp_def] at h3 ⊢
  linarith

/-- Rows labeled exactly `Held` are the held-zone pieces. -/
theorem lblSum_held (pcs : List Piece) (d : ℚ) :
    lblSum (label_control pcs d) "Held"
      = pieceLenSum (pcs.filter fun p => hbuffMem p.bdist d) := by
  simp [label_control, lblSum, lensum, pieceLenSum, List.filter_append,
    List.filter_map, Function.comp_def, List.map_map]

/-- Rows labeled exactly `Burnt Over` are the burned-over-zone pieces. -/
theorem lblSum_burnt (pcs : List Piece) (d : ℚ) :
    lblSum (label_control pcs d) "Burnt Over"
      = pieceLenSum (pcs.filter fun p => bbuffMem p.inside p.bdist d) := by
  simp [label_control, lblSum, lensum, pieceLenSum, List.filter_append,
    List.filter_map, Function.comp_def, List.map_map]

/-- Rows labeled exactly `Not Engaged` are the not-engaged-zone pieces. -/
theorem lblSum_ne (pcs : List Piece) (d : ℚ) :
    lblSum (label_control pcs d) "Not Engaged"
      = pieceLenSum (pcs.filter fun p => notEngagedMem p.inside p.bdist d) := by
  simp [label_control, lblSum, lensum, pieceLenSum, List.filter_append,
    List.filter_map, Function.comp_def, List.map_map]

/-- C1 counterexample.  The claim states that the zone used for the
`Held` clip is the interior-side ring of width `d` and the zone used for
the `Burnt Over` clip is the exterior-side ring of width `d`.  At the
point outside the perimeter at boundary distance `1/2` (with `d = 1`),
the code's held zone contains the point while the spec's interior ring
does not (the spec places it in the burned-over ring, where the code's
burned-over zone does not); at the point inside the perimeter at
boundary distance `2`, the code's burned-over zone contains the point
while the spec's exterior ring does not. -/
theorem C1_cex :
    hbuffMem (1/2 : ℚ) 1 = true
      ∧ specHeldZone false (1/2 : ℚ) 1 = false
      ∧ specBurnedOverZone false (1/2 : ℚ) 1 = true
      ∧ bbuffMem false (1/2 : ℚ) 1 = false
      ∧ bbuffMem true 2 1 = true
      ∧ specBurnedOverZone true 2 1 = false := by
  norm_num [hbuffMem, specHeldZone, specBurnedOverZone, bbuffMem, pgeoMem]

/-- C1 (amended): what `_label_control` actually clips against.  The
held zone `hbuff = pgeo.boundary.buffer(d)` is the band of points within
boundary distance `d` on *both* sides of the perimeter; the burned-over
zone `bbuff = pgeo.difference(hbuff)` is the perimeter *interior* at
boundary distance greater than `d`; the remaining not-engaged region is
the exterior at boundary distance greater than `d`. -/
theorem C1_zones (inside : Bool) (bdist d : ℚ) :
    hbuffMem bdist d = decide (bdist ≤ d)
      ∧ bbuffMem inside bdist d = (inside && decide (d < bdist))
      ∧ notEngagedMem inside bdist d = (!inside && decide (d < bdist)) := by
  have h1 : bbuffMem inside bdist d = (inside && decide (d < bdist)) := by
    rcases le_or_lt bdist d with h | h
    · simp [bbuffMem, hbuffMem, pgeoMem, h, not_lt.mpr h]
    · simp [bbuffMem, hbuffMem, pgeoMem, h, not_le.mpr h]
  have h2 : notEngagedMem inside bdist d = (!inside && decide (d < bdist)) := by
    rcases le_or_lt bdist d with h | h
    · cases inside <;>
        simp [notEngagedMem, nbuffMem, bbuffMem, hbuffMem, pgeoMem, h, not_lt.mpr h]
    · cases inside <;>
        simp [notEngagedMem, nbuffMem, bbuffMem, hbuffMem, pgeoMem, h, not_le.mpr h]
  exact ⟨rfl, h1, h2⟩

/-- C5: the Held / Burnt Over / Not Engaged zones of `_label_control`
partition the plane (each point lies in exactly one), clipping is a
length-preserving partition (the labeled rows' total length equals the
input pieces' total length), and consequently
`heldLength + burnedOverLength + notEngagedLength = totalLength`. -/
theorem C5_partition_length (inside : Bool) (bdist d : ℚ) (pcs : List Piece) :
    ((hbuffMem bdist d).toNat + (bbuffMem inside bdist d).toNat
        + (notEngagedMem inside bdist d).toNat = 1)
      ∧ lensum (label_control pcs d) = pieceLenSum pcs
      ∧ lblSum (label_control pcs d) "Held"
          + lblSum (label_control pcs d) "Burnt Over"
          + lblSum (label_control pcs d) "Not Engaged"
        = pieceLenSum pcs := by
  refine ⟨zones_exactly_one inside bdist d, lensum_label_control pcs d, ?_⟩
  rw [lblSum_held, lblSum_burnt, lblSum_ne]
  exact filter_three_len pcs d

/-- `pat` occurs at the start of `l` (character lists). -/
def listStartsWith : List Char → List Char → Bool
  | _, [] => true
  | [], _ :: _ => false
  | a :: as, b :: bs => decide (a = b) && listStartsWith as bs

/-- `pat` occurs contiguously somewhere inside `l` (character lists). -/
def listHasSub : List Char → List Char → Bool
  | [], pat => pat.isEmpty
  | a :: as, pat => listStartsWith (a :: as) pat || listHasSub as pat

/-- pandas `Series.str.contains(pat)`: substring containment test (the
engagement labels used as patterns contain no regex metacharacters, so
the regex search is a literal substring search). -/
def strContains (s pat : String) : Bool := listHasSub s.toList pat.toList

/-- pandas `Series.str.contains(pat, case=False)` (qaqc.py line 372):
case-insensitive substring containment (again a literal pattern). -/
def strContainsCI (s pat : String) : Bool :=
  listHasSub (s.toList.map Char.toLower) (pat.toList.map Char.toLower)

/-- Python/numpy division as it appears in `_get_metrics`: the operands
are numpy float64 values, so a zero denominator yields a non-finite
result (`inf` or `nan`, with only a runtime warning) rather than an
exception; a non-finite result is modelled as `none`. -/
def pydiv (a b : ℚ) : Option ℚ := if b = 0 then none else some (a / b)

/-- The per-incident metric record built by `_get_metrics`
(qaqc.py lines 326-341).  `none` stands for a non-finite float. -/
structure Metrics where
  HTr : Option ℚ
  TR : Option ℚ
  Er : Option ℚ
  HER : Option ℚ
  BTR : Option ℚ
  NeTr : Option ℚ
  PrAr : Option ℚ
  deriving DecidableEq

/-- `gr_df[gr_df.index.str.contains(pat)]['length'].sum()`: group sums
per label followed by a filtered sum equal the direct sum over the rows
whose label contains the pattern. -/
def sumMatching (rows : List (String × ℚ)) (pat : String) : ℚ :=
  lensum (rows.filter fun r => strContains r.1 pat)

/-- Same with the regex alternation `p1|p2`. -/
def sumMatching2 (rows : List (String × ℚ)) (p1 p2 : String) : ℚ :=
  lensum (rows.filter fun r => strContains r.1 p1 || strContains r.1 p2)

/-- `_get_metrics(df, pgeo)` (qaqc.py lines 326-341): the seven
containment ratios from the labeled rows and the perimeter's length and
area.  The divisions are written exactly as in the source, with no
zero-denominator guard. -/
def getMetrics (rows : List (String × ℚ)) (fperm farea : ℚ) : Metrics :=
  let total := lensum rows
  { HTr := pydiv (sumMatching rows "Held") total,
    TR := pydiv total fperm,
    Er := pydiv (sumMatching2 rows "Held" "Burnt Over") total,
    HER := pydiv (sumMatching rows "Held") (sumMatching2 rows "Held" "Burnt Over"),
    BTR := pydiv (sumMatching rows "Burnt Over") total,
    NeTr := pydiv (sumMatching rows "Not Engaged") total,
    PrAr := pydiv fperm farea }

/-- Data-model quantity `heldLength` for one incident's labeled rows. -/
def heldLength (pcs : List Piece) (d : ℚ) : ℚ :=
  lblSum (label_control pcs d) "Held"

/-- Data-model quantity `burnedOverLength`. -/
def burnedOverLength (pcs : List Piece) (d : ℚ) : ℚ :=
  lblSum (label_control pcs d) "Burnt Over"

/-- Data-model quantity `notEngagedLength`. -/
def notEngagedLength (pcs : List Piece) (d : ℚ) : ℚ :=
  lblSum (label_control pcs d) "Not Engaged"

/-- Data-model quantity `totalLength` (`df.length.sum()`). -/
def totalLength (pcs : List Piece) (d : ℚ) : ℚ :=
  lensum (label_control pcs d)

/-- The substring filter for `Held` keeps exactly the held block. -/
theorem sumMatching_held (pcs : List Piece) (d : ℚ) :
    sumMatching (label_control pcs d) "Held"
      = pieceLenSum (pcs.filter fun p => hbuffMem p.bdist d) := by
  have e1 : strContains "Held" "Held" = true := by decide
  have e2 : strContains "Burnt Over" "Held" = false := by decide
  have e3 : strContains "Not Engaged" "Held" = false := by decide
  simp [label_control, sumMatching, lensum, pieceLenSum, List.filter_append,
    List.filter_map, Function.comp_def, List.map_map, e1, e2, e3]

/-- The substring filter for `Burnt Over` keeps exactly the burned block. -/
theorem sumMatching_burnt (pcs : List Piece) (d : ℚ) :
    sumMatching (label_control pcs d) "Burnt Over"
      = pieceLenSum (pcs.filter fun p => bbuffMem p.inside p.bdist d) := by
  have e1 : strContains "Held" "Burnt Over" = false := by decide
  have e2 : strContains "Burnt Over" "Burnt Over" = true := by decide
  have e3 : strContains "Not Engaged" "Burnt Over" = false := by decide
  simp [label_control, sumMatching, lensum, pieceLenSum, List.filter_append,
    List.filter_map, Function.comp_def, List.map_map, e1, e2, e3]

/-- The substring filter for `Not Engaged` keeps exactly the last block. -/
theorem sumMatching_ne (pcs : List Piece) (d : ℚ) :
    sumMatching (label_control pcs d) "Not Engaged"
      = pieceLenSum (pcs.filter fun p => notEngagedMem p.inside p.bdist d) := by
  have e1 : strContains "Held" "Not Engaged" = false := by decide
  have e2 : strContains "Burnt Over" "Not Engaged" = false := by decide
  have e3 : strContains "Not Engaged" "Not Engaged" = true := by decide
  simp [label_control, sumMatching, lensum, pieceLenSum, List.filter_append,
    List.filter_map, Function.comp_def, List.map_map, e1, e2, e3]

/-- The alternation filter `Held|Burnt Over` keeps the first two blocks. -/
theorem sumMatching2_heldburnt (pcs : List Piece) (d : ℚ) :
    sumMatching2 (label_control pcs d) "Held" "Burnt Over"
      = pieceLenSum (pcs.filter fun p => hbuffMem p.bdist d)
        + pieceLenSum (pcs.filter fun p => bbuffMem p.inside p.bdist d) := by
  have e1 : strContains "Held" "Held" = true := by decide
  have e2 : strContains "Burnt Over" "Burnt Over" = true := by decide
  have e3 : strContains "Not Engaged" "Held" = false := by decide
  have e4 : strContains "Not Engaged" "Burnt Over" = false := by decide
  simp [label_control, sumMatching2, lensum, pieceLenSum, List.filter_append,
    List.filter_map, Function.comp_def, List.map_map, e1, e2, e3, e4]

/-- `_get_metrics` over the output of `_label_control`, written with the
data-model length quantities. -/
theorem getMetrics_label_control (pcs : List Piece) (d fperm farea : ℚ) :
    getMetrics (label_control pcs d) fperm farea =
      { HTr := pydiv (heldLength pcs d) (totalLength pcs d),
        TR := pydiv (totalLength pcs d) fperm,
        Er := pydiv (heldLength pcs d + burnedOverLength pcs d) (totalLength pcs d),
        HER := pydiv (heldLength pcs d) (heldLength pcs d + burnedOverLength pcs d),
        BTR := pydiv (burnedOverLength pcs d) (totalLength pcs d),
        NeTr := pydiv (notEngagedLength pcs d) (totalLength pcs d),
        PrAr := pydiv fperm farea } := by
  simp [getMetrics, heldLength, burnedOverLength, notEngagedLength, totalLength,
    sumMatching_held pcs d, sumMatching_burnt pcs d, sumMatching_ne pcs d,
    sumMatching2_heldburnt pcs d, lblSum_held, lblSum_burnt, lblSum_ne]

/-- C2 counterexample.  On an input with `totalLength = 0` the divisions
of `_get_metrics` are not guarded: the ratios come out non-finite
(`nan`), not `0` as the claim states. -/
theorem C2_cex :
    (getMetrics ([] : List (String × ℚ)) 4 1).HTr = none
      ∧ (getMetrics ([] : List (String × ℚ)) 4 1).Er = none
      ∧ (getMetrics ([] : List (String × ℚ)) 4 1).BTR = none
      ∧ (getMetrics ([] : List (String × ℚ)) 4 1).NeTr = none
      ∧ (getMetrics ([] : List (String × ℚ)) 4 1).HER = none
      ∧ (getMetrics ([] : List (String × ℚ)) 4 1).HTr ≠ some 0 := by
  norm_num [getMetrics, pydiv, lensum, sumMatching, sumMatching2]
  exact fun hh => Option.noConfusion hh

/-- C2 (amended): `_get_metrics` does not guard its divisions.  When
`totalLength = 0` the ratios `HTr`, `Er`, `BTR`, `NeTr` are non-finite
floats (modelled `none`), not `0`; likewise `HER` when
`held + burnedOver = 0` and `PrAr` when `area = 0`.  No exception is
raised (numpy float division only warns); the all-zero metrics row of a
zero-line incident comes from a separate literal branch of
`_average_lines`, not from guarded division. -/
theorem C2_unguarded (rows : List (String × ℚ)) (fperm farea : ℚ)
    (htot : lensum rows = 0) :
    (getMetrics rows fperm farea).HTr = none
      ∧ (getMetrics rows fperm farea).Er = none
      ∧ (getMetrics rows fperm farea).BTR = none
      ∧ (getMetrics rows fperm farea).NeTr = none
      ∧ (sumMatching2 rows "Held" "Burnt Over" = 0
          → (getMetrics rows fperm farea).HER = none)
      ∧ (farea = 0 → (getMetrics rows fperm farea).PrAr = none) := by
  refine ⟨?_, ?_, ?_, ?_, fun h => ?_, fun h => ?_⟩ <;>
    simp [getMetrics, pydiv, htot] <;> simp [h]

/-- C2 witness: the empty labeled-row list with `area = 0`. -/
theorem C2_unguarded_witness :
    lensum ([] : List (String × ℚ)) = 0
      ∧ ((getMetrics ([] : List (String × ℚ)) 4 0).HTr = none
        ∧ (getMetrics ([] : List (String × ℚ)) 4 0).Er = none
        ∧ (getMetrics ([] : List (String × ℚ)) 4 0).BTR = none
        ∧ (getMetrics ([] : List (String × ℚ)) 4 0).NeTr = none
        ∧ (sumMatching2 ([] : List (String × ℚ)) "Held" "Burnt Over" = 0
            → (getMetrics ([] : List (String × ℚ)) 4 0).HER = none)
        ∧ ((0 : ℚ) = 0 → (getMetrics ([] : List (String × ℚ)) 4 0).PrAr = none)) :=
  ⟨by simp [lensum], C2_unguarded [] 4 0 (by simp [lensum])⟩

/-- C9: with a positive total length, positive engaged length, positive
perimeter length and positive area, the metrics computed by
`_get_metrics` equal the stated formulas. -/
theorem C9_formulas (pcs : List Piece) (d fperm farea : ℚ)
    (htot : 0 < totalLength pcs d)
    (heng : 0 < heldLength pcs d + burnedOverLength pcs d)
    (hperm : 0 < fperm) (harea : 0 < farea) :
    (getMetrics (label_control pcs d) fperm farea).HTr
        = some (heldLength pcs d / totalLength pcs d)
      ∧ (getMetrics (label_control pcs d) fperm farea).TR
        = some (totalLength pcs d / fperm)
      ∧ (getMetrics (label_control pcs d) fperm farea).Er
        = some ((heldLength pcs d + burnedOverLength pcs d) / totalLength pcs d)
      ∧ (getMetrics (label_control pcs d) fperm farea).HER
        = some (heldLength pcs d / (heldLength pcs d + burnedOverLength pcs d))
      ∧ (getMetrics (label_control pcs d) fperm farea).BTR
        = some (burnedOverLength pcs d / totalLength pcs d)
      ∧ (getMetrics (label_control pcs d) fperm farea).NeTr
        = some (notEngagedLength pcs d / totalLength pcs d)
      ∧ (getMetrics (label_control pcs d) fperm farea).PrAr
        = some (fperm / farea) := by
  rw [getMetrics_label_control]
  simp [pydiv, htot.ne', heng.ne', hperm.ne', harea.ne']

/-- Concrete incident for the C9 witness: one held piece of length 10,
one burned-over piece of length 5, one not-engaged piece of length 5,
with engagement distance 50. -/
def c9pcs : List Piece := [⟨true, 0, 10⟩, ⟨true, 100, 5⟩, ⟨false, 100, 5⟩]

/-- C9 witness: the formulas hold on the concrete incident. -/
theorem C9_formulas_witness :
    (0 : ℚ) < totalLength c9pcs 50
      ∧ (0 : ℚ) < heldLength c9pcs 50 + burnedOverLength c9pcs 50
      ∧ (0 : ℚ) < 4 ∧ (0 : ℚ) < 2
      ∧ ((getMetrics (label_control c9pcs 50) 4 2).HTr
          = some (heldLength c9pcs 50 / totalLength c9pcs 50)
        ∧ (getMetrics (label_control c9pcs 50) 4 2).TR
          = some (totalLength c9pcs 50 / 4)
        ∧ (getMetrics (label_control c9pcs 50) 4 2).Er
          = some ((heldLength c9pcs 50 + burnedOverLength c9pcs 50) / totalLength c9pcs 50)
        ∧ (getMetrics (label_control c9pcs 50) 4 2).HER
          = some (heldLength c9pcs 50 / (heldLength c9pcs 50 + burnedOverLength c9pcs 50))
        ∧ (getMetrics (label_control c9pcs 50) 4 2).BTR
          = some (burnedOverLength c9pcs 50 / totalLength c9pcs 50)
        ∧ (getMetrics (label_control c9pcs 50) 4 2).NeTr
          = some (notEngagedLength c9pcs 50 / totalLength c9pcs 50)
        ∧ (getMetrics (label_control c9pcs 50) 4 2).PrAr
          = some ((4 : ℚ) / 2)) := by
  have h1 : (0 : ℚ) < totalLength c9pcs 50 := by
    norm_num [c9pcs, totalLength, lensum, label_control, List.filter_cons,
      hbuffMem, bbuffMem, notEngagedMem, nbuffMem, pgeoMem]
  have h2 : (0 : ℚ) < heldLength c9pcs 50 + burnedOverLength c9pcs 50 := by
    have e1 : ("Burnt Over" : String) ≠ "Held" := by decide
    have e2 : ("Not Engaged" : String) ≠ "Held" := by decide
    have e3 : ("Held" : String) ≠ "Burnt Over" := by decide
    have e4 : ("Not Engaged" : String) ≠ "Burnt Over" := by decide
    norm_num [c9pcs, heldLength, burnedOverLength, lblSum, lensum, label_control,
      List.filter_cons, hbuffMem, bbuffMem, notEngagedMem, nbuffMem, pgeoMem,
      e1, e2, e3, e4]
  exact ⟨h1, h2, by norm_num, by norm_num,
    C9_formulas c9pcs 50 4 2 h1 h2 (by norm_num) (by norm_num)⟩

/-- The row-selection predicate of `_average_lines` (qaqc.py line 372):
a line participates in the incident with key `id` when its
`FeatureCategory` equals the category being processed, its `DeleteThis`
attribute equals `"No"`, and its `IncidentName` contains `id` as a
case-insensitive substring (`.str.contains(id, case=False)`). -/
def selectLine (lineFc lineDel lineName fc id : String) : Bool :=
  (lineFc == fc) && (lineDel == "No") && strContainsCI lineName id

/-- `listStartsWith` recognizes exactly the lists beginning with `p`. -/
theorem listStartsWith_iff (p l : List Char) :
    listStartsWith l p = true ↔ ∃ t, l = p ++ t := by
  induction p generalizing l with
  | nil => simp [listStartsWith]
  | cons b bs ih =>
    cases l with
    | nil => simp [listStartsWith]
    | cons a as =>
      simp [listStartsWith, ih, List.cons_eq_cons]

/-- `listHasSub` recognizes exactly the lists containing `p`
contiguously. -/
theorem listHasSub_iff (p l : List Char) :
    listHasSub l p = true ↔ ∃ s t, l = s ++ p ++ t := by
  induction l with
  | nil =>
    simp [listHasSub, List.isEmpty_iff]
  | cons a as ih =>
    simp [listHasSub, listStartsWith_iff, ih]
    constructor
    · rintro (⟨t, ht⟩ | ⟨s, t, hst⟩)
      · exact ⟨[], t, by simpa using ht⟩
      · exact ⟨a :: s, t, by simp [hst]⟩
    · rintro ⟨s, t, hst⟩
      cases s with
      | nil =>
        exact Or.inl ⟨t, by simpa using hst⟩
      | cons c s' =>
        right
        rcases List.cons_eq_cons.mp (by simpa using hst) with ⟨hac, hrest⟩
        exact ⟨s', t, by simp [hrest]⟩

/-- Substring containment is transitive. -/
theorem listHasSub_trans {a b c : List Char} (h1 : listHasSub b a = true)
    (h2 : listHasSub c b = true) : listHasSub c a = true := by
  rw [listHasSub_iff] at h1 h2 ⊢
  obtain ⟨s1, t1, hb⟩ := h1
  obtain ⟨s2, t2, hc⟩ := h2
  subst hb
  exact ⟨s2 ++ s1, t1 ++ t2, by simp [hc, List.append_assoc]⟩

/-- C10: line selection in `_average_lines` is case-insensitive substring
containment of the incident key in `IncidentName`, not equality;
consequently any line selected for an incident key `k2` is also selected
(same category loop, same deletion filter) for every incident key `k1`
that is a case-insensitive substring of `k2`, and so is clustered,
classified and counted in the shorter-keyed incident's metrics as well. -/
theorem C10_substring_absorb (lineFc lineDel lineName fc k1 k2 : String)
    (hsel : selectLine lineFc lineDel lineName fc k2 = true)
    (hsub : strContainsCI k2 k1 = true) :
    selectLine lineFc lineDel lineName fc k1 = true := by
  simp only [selectLine, Bool.and_eq_true] at hsel ⊢
  exact ⟨hsel.1, listHasSub_trans hsub hsel.2⟩

/-- C10 witness: a line named `CAMP FIRE EAST` is selected for the
incident keyed `CAMP FIRE`, whose key in turn contains `Camp`
case-insensitively, so the same line is also selected for `Camp` —
although its name equals neither key. -/
theorem C10_substring_absorb_witness :
    selectLine "Completed Dozer Line" "No" "CAMP FIRE EAST"
        "Completed Dozer Line" "CAMP FIRE" = true
      ∧ strContainsCI "CAMP FIRE" "Camp" = true
      ∧ selectLine "Completed Dozer Line" "No" "CAMP FIRE EAST"
        "Completed Dozer Line" "Camp" = true :=
  ⟨by decide, by decide,
    C10_substring_absorb "Completed Dozer Line" "No" "CAMP FIRE EAST"
      "Completed Dozer Line" "Camp" "CAMP FIRE" (by decide) (by decide)⟩

/-- Python 3 `round` on an exact rational: round half to even
(banker's rounding, the semantics of the builtin used at
qaqc.py line 301). -/
def pyRound (x : ℚ) : ℤ :=
  let f := ⌊x⌋
  let r := x - (f : ℚ)
  if r < 1/2 then f
  else if 1/2 < r then f + 1
  else if f % 2 = 0 then f else f + 1

/-- `num_vert` of `_redistribute_vertices` (qaqc.py lines 301-303):
`int(round(geom.length / distance))`, bumped to 1 when it is 0
(lengths are nonnegative, so the `toNat` clamp is inert). -/
def numVerts (L d : ℚ) : ℕ :=
  let n0 := (pyRound (L / d)).toNat
  if n0 = 0 then 1 else n0

/-- `geom.interpolate(t, normalized=True)` on a two-point LineString
`p → q`: linear interpolation between the endpoints. -/
def interpolateSeg (p q : Pt) (t : ℚ) : Pt :=
  (p.1 + t * (q.1 - p.1), p.2 + t * (q.2 - p.2))

/-- `_redistribute_vertices(geom, distance)` (qaqc.py lines 299-304) on a
two-point LineString `p → q`: vertices at the fractions `k / num_vert`
for `k = 0 .. num_vert`.  `L` is `geom.length`, supplied together with
its defining property `L ^ 2 = dist2 p q` (the library's Euclidean
length is irrational in general, so it enters as a constrained input). -/
def redistribute_vertices (p q : Pt) (L d : ℚ) : List Pt :=
  (List.range (numVerts L d + 1)).map
    fun (k : ℕ) => interpolateSeg p q ((k : ℚ) / (numVerts L d : ℚ))

/-- `np.mean(vls, axis=0)` (qaqc.py line 400): coordinate-wise mean. -/
def meanPoint (pts : List Pt) : Pt :=
  ((pts.map fun v => v.1).sum / (pts.length : ℚ),
   (pts.map fun v => v.2).sum / (pts.length : ℚ))

/-- `kdt.query_ball_point(v, r)` (qaqc.py line 395): all indexed points
within Euclidean distance `r` of `v` (closed ball, compared on squares
to stay in `ℚ`). -/
def ballQuery (pts : List Pt) (v : Pt) (r : ℚ) : List Pt :=
  pts.filter fun u => decide (dist2 v u ≤ r ^ 2)

/-- The Centerline Averager of `_average_lines` (qaqc.py lines 379-404)
on an Action containing exactly one segment, of any shape: the segment
is its own longest line, so the skeleton vertices (`pnts`) and the
KD-tree points (`all_pnts`) are both its densified vertex list `dv`,
and each skeleton vertex is replaced by the coordinate-wise mean of the
densified vertices within `line_dist` of it. -/
def averagePolyline (dv : List Pt) (d : ℚ) : List Pt :=
  dv.map fun v => meanPoint (ballQuery dv v d)

/-- The single-segment Centerline Averager instantiated at a two-point
LineString: the densified vertices come from `_redistribute_vertices`. -/
def average_single (p q : Pt) (L d : ℚ) : List Pt :=
  averagePolyline (redistribute_vertices p q L d) d

/-- `num_vert` is always at least 1. -/
theorem numVerts_pos (L d : ℚ) : 0 < numVerts L d := by
  simp only [numVerts]
  split <;> omega

/-- Squared distance between two interpolation points of a segment. -/
theorem dist2_interpolate (p q : Pt) (s t : ℚ) :
    dist2 (interpolateSeg p q s) (interpolateSeg p q t)
      = (t - s) ^ 2 * dist2 p q := by
  simp only [dist2, interpolateSeg]
  ring

/-- The coordinate-wise mean of a nonempty list all of whose elements
are `v` is `v`. -/
theorem meanPoint_const (l : List Pt) (v : Pt) (hne : l ≠ [])
    (hall : ∀ u ∈ l, u = v) : meanPoint l = v := by
  have hx : l.map (fun u => u.1) = List.replicate l.length v.1 := by
    rw [List.eq_replicate_iff]
    refine ⟨by simp, ?_⟩
    intro b hb
    rcases List.mem_map.mp hb with ⟨u, hu, rfl⟩
    rw [hall u hu]
  have hy : l.map (fun u => u.2) = List.replicate l.length v.2 := by
    rw [List.eq_replicate_iff]
    refine ⟨by simp, ?_⟩
    intro b hb
    rcases List.mem_map.mp hb with ⟨u, hu, rfl⟩
    rw [hall u hu]
  have hlen : (l.length : ℚ) ≠ 0 := by
    have h0 : l.length ≠ 0 := by simpa [List.length_eq_zero] using hne
    exact_mod_cast h0
  unfold meanPoint
  rw [hx, hy, List.sum_replicate, List.sum_replicate]
  refine Prod.ext_iff.mpr ⟨?_, ?_⟩ <;>
    simp [nsmul_eq_mul] <;>
    rw [mul_comm, mul_div_assoc, div_self hlen, mul_one]

/-- Interpolation at fraction 0 is the start point. -/
theorem interpolate_zero (p q : Pt) : interpolateSeg p q 0 = p :=
  Prod.ext_iff.mpr ⟨by simp [interpolateSeg], by simp [interpolateSeg]⟩

/-- Interpolation at fraction 1 is the end point. -/
theorem interpolate_one (p q : Pt) : interpolateSeg p q 1 = q :=
  Prod.ext_iff.mpr ⟨by simp [interpolateSeg], by simp [interpolateSeg]⟩

/-- C3 (amended): the Centerline Averager on an Action containing
exactly one segment returns the densified geometry unchanged whenever
any two densified vertices within `line_dist` of each other coincide —
each vertex's closed `line_dist` ball then contains only copies of that
vertex, so every mean is the vertex itself.  This covers segments of
any shape.  For a straight two-point segment the separation follows
from `line_dist · num_vert < length` (second conjunct).  When vertices
approach within `line_dist` — a straight segment densified at spacing
≤ `line_dist`, or a bent segment whose distinct parts pass within
`line_dist` of each other — averaging moves vertices and the identity
fails; see the counterexample. -/
theorem C3_single_identity :
    (∀ (dv : List Pt) (d : ℚ),
        (∀ u ∈ dv, ∀ v ∈ dv, dist2 u v ≤ d ^ 2 → u = v) →
        averagePolyline dv d = dv)
      ∧ ∀ (p q : Pt) (L d : ℚ), 0 ≤ d → L ^ 2 = dist2 p q →
          d * (numVerts L d : ℚ) < L →
          average_single p q L d = redistribute_vertices p q L d := by
  have hgen : ∀ (dv : List Pt) (d : ℚ),
      (∀ u ∈ dv, ∀ v ∈ dv, dist2 u v ≤ d ^ 2 → u = v) →
      averagePolyline dv d = dv := by
    intro dv d hsep
    unfold averagePolyline
    conv_rhs => rw [← List.map_id dv]
    apply List.map_congr_left
    intro v hv
    have hvball : v ∈ ballQuery dv v d := by
      refine List.mem_filter.mpr ⟨hv, ?_⟩
      have h0 : dist2 v v = 0 := by simp [dist2]
      rw [decide_eq_true_eq, h0]
      positivity
    have hall : ∀ u ∈ ballQuery dv v d, u = v := by
      intro u hu
      rcases List.mem_filter.mp hu with ⟨hudv, hdist⟩
      exact (hsep v hv u hudv (of_decide_eq_true hdist)).symm
    rw [meanPoint_const (ballQuery dv v d) v (List.ne_nil_of_mem hvball) hall, id]
  refine ⟨hgen, ?_⟩
  intro p q L d hd hL hspace
  have hn0 : 0 < numVerts L d := numVerts_pos L d
  have hnq : (0 : ℚ) < (numVerts L d : ℚ) := by exact_mod_cast hn0
  apply hgen
  intro u hu v hv hduv
  simp only [redistribute_vertices, List.mem_map, List.mem_range] at hu hv
  obtain ⟨j, hj, rfl⟩ := hu
  obtain ⟨k, hk, rfl⟩ := hv
  have hjk : j = k := by
    by_contra hne
    have hz0 : ((k : ℤ) - (j : ℤ)) ≠ 0 :=
      sub_ne_zero.mpr fun hc => hne (by exact_mod_cast hc.symm)
    have h1 : (1 : ℤ) ≤ ((k : ℤ) - (j : ℤ)) ^ 2 := by
      rcases hz0.lt_or_lt with hlt | hlt <;> nlinarith
    have h1q : (1 : ℚ) ≤ ((k : ℚ) - (j : ℚ)) ^ 2 := by exact_mod_cast h1
    have hL2 : d ^ 2 * (numVerts L d : ℚ) ^ 2 < L ^ 2 := by
      nlinarith [hspace, mul_nonneg hd (le_of_lt hnq)]
    rw [dist2_interpolate, ← hL] at hduv
    have hfrac : ((k : ℚ) / (numVerts L d : ℚ) - (j : ℚ) / (numVerts L d : ℚ)) ^ 2
        = ((k : ℚ) - (j : ℚ)) ^ 2 / (numVerts L d : ℚ) ^ 2 := by
      rw [div_sub_div_same, div_pow]
    rw [hfrac, div_mul_eq_mul_div, div_le_iff₀ (by positivity)] at hduv
    nlinarith [hduv, h1q, hL2, sq_nonneg L]
  rw [hjk]

/-- C3 counterexample: the claim's identity fails for the horizontal
segment from the origin to `(50, 0)` with `line_dist = 25` — the
densified vertices are spaced exactly `line_dist` apart, each endpoint's
closed ball also contains its interior neighbor, and the averaged first
vertex moves from `(0,0)` to `(12.5, 0)`. -/
theorem C3_cex :
    (50 : ℚ) ^ 2 = dist2 (0, 0) (50, 0)
      ∧ average_single (0, 0) (50, 0) 50 25
        ≠ redistribute_vertices (0, 0) (50, 0) 50 25 := by
  have hnv : numVerts 50 25 = 2 := by
    have hf : ⌊(50 / 25 : ℚ)⌋ = 2 := by norm_num
    norm_num [numVerts, pyRound, hf]
    decide
  have hdv : redistribute_vertices (0, 0) (50, 0) 50 25
      = [((0 : ℚ), (0 : ℚ)), (25, 0), (50, 0)] := by
    norm_num [redistribute_vertices, hnv, interpolateSeg, List.range_succ,
      Prod.ext_iff]
  have havg : average_single (0, 0) (50, 0) 50 25
      = [((25 / 2 : ℚ), (0 : ℚ)), (25, 0), (75 / 2, 0)] := by
    rw [average_single, averagePolyline, hdv]
    norm_num [ballQuery, dist2, List.filter_cons, meanPoint, Prod.ext_iff]
  refine ⟨by norm_num [dist2], ?_⟩
  rw [havg, hdv]
  intro hcon
  have := List.head_eq_of_cons_eq hcon
  rw [Prod.ext_iff] at this
  norm_num at this

/-- C3 witness: the identity case at a straight segment of length 60
with `line_dist = 25` (vertex spacing 30 > 25), through the
straight-segment conjunct of the theorem. -/
theorem C3_single_identity_witness :
    (0 : ℚ) ≤ 25
      ∧ (60 : ℚ) ^ 2 = dist2 (0, 0) (60, 0)
      ∧ 25 * (numVerts 60 25 : ℚ) < 60
      ∧ average_single (0, 0) (60, 0) 60 25
        = redistribute_vertices (0, 0) (60, 0) 60 25 := by
  have h1 : (0 : ℚ) ≤ 25 := by norm_num
  have h2 : (60 : ℚ) ^ 2 = dist2 (0, 0) (60, 0) := by norm_num [dist2]
  have hnv : numVerts 60 25 = 2 := by
    have hf : ⌊(60 / 25 : ℚ)⌋ = 2 := by norm_num
    norm_num [numVerts, pyRound, hf]
    decide
  have h3 : 25 * (numVerts 60 25 : ℚ) < 60 := by rw [hnv]; norm_num
  exact ⟨h1, h2, h3, C3_single_identity.2 (0, 0) (60, 0) 60 25 h1 h2 h3⟩

/-- C8: `_redistribute_vertices` on a two-point LineString `p → q` of
length `L`: the output has `num_vert + 1` vertices where `num_vert` is
`round(L / lineDist)` bumped to a minimum of 1 (so at least the two
endpoints survive, also for a degenerate segment shorter than one
interval), the first vertex is `p`, the last is `q`, vertex `k` is the
linear interpolation at fraction `k / num_vert`, and consecutive
vertices are equally spaced at squared distance `L² / num_vert²`. -/
theorem C8_redistribute (p q : Pt) (L d : ℚ) (hL : L ^ 2 = dist2 p q) :
    (redistribute_vertices p q L d).length = numVerts L d + 1
      ∧ 2 ≤ (redistribute_vertices p q L d).length
      ∧ (redistribute_vertices p q L d)[0]? = some p
      ∧ (redistribute_vertices p q L d)[numVerts L d]? = some q
      ∧ (∀ k, k ≤ numVerts L d →
          (redistribute_vertices p q L d)[k]?
            = some (interpolateSeg p q ((k : ℚ) / (numVerts L d : ℚ))))
      ∧ (∀ k, k < numVerts L d → ∀ a b,
          (redistribute_vertices p q L d)[k]? = some a →
          (redistribute_vertices p q L d)[k + 1]? = some b →
          dist2 a b = L ^ 2 / ((numVerts L d : ℚ)) ^ 2) := by
  have hn0 : 0 < numVerts L d := numVerts_pos L d
  have hnq : ((numVerts L d : ℚ)) ≠ 0 := by
    exact_mod_cast Nat.pos_iff_ne_zero.mp hn0
  have hget : ∀ k, k ≤ numVerts L d →
      (redistribute_vertices p q L d)[k]?
        = some (interpolateSeg p q ((k : ℚ) / (numVerts L d : ℚ))) := by
    intro k hk
    simp [redistribute_vertices, List.getElem?_map,
      List.getElem?_range (Nat.lt_succ_of_le hk)]
  refine ⟨?_, ?_, ?_, ?_, hget, ?_⟩
  · simp [redistribute_vertices]
  · simp [redistribute_vertices]
    omega
  · rw [hget 0 (Nat.zero_le _)]
    norm_num [interpolate_zero]
  · rw [hget (numVerts L d) (Nat.le_refl _)]
    rw [div_self hnq, interpolate_one]
  · intro k hk a b ha hb
    rw [hget k (Nat.le_of_lt hk)] at ha
    rw [hget (k + 1) hk] at hb
    have ha' := Option.some.inj ha
    have hb' := Option.some.inj hb
    subst ha'
    subst hb'
    rw [dist2_interpolate, ← hL]
    push_cast
    rw [div_sub_div_same]
    have : ((k : ℚ) + 1 - (k : ℚ)) = 1 := by ring
    rw [this, div_pow, one_pow]
    ring

/-- C8 witness: the 3-4-5 segment from the origin to `(3, 4)` with
`lineDist = 2`. -/
theorem C8_redistribute_witness :
    (5 : ℚ) ^ 2 = dist2 (0, 0) (3, 4)
      ∧ ((redistribute_vertices (0, 0) (3, 4) 5 2).length = numVerts 5 2 + 1
        ∧ 2 ≤ (redistribute_vertices (0, 0) (3, 4) 5 2).length
        ∧ (redistribute_vertices (0, 0) (3, 4) 5 2)[0]? = some (0, 0)
        ∧ (redistribute_vertices (0, 0) (3, 4) 5 2)[numVerts 5 2]? = some (3, 4)
        ∧ (∀ k, k ≤ numVerts 5 2 →
            (redistribute_vertices (0, 0) (3, 4) 5 2)[k]?
              = some (interpolateSeg (0, 0) (3, 4) ((k : ℚ) / (numVerts 5 2 : ℚ))))
        ∧ (∀ k, k < numVerts 5 2 → ∀ a b,
            (redistribute_vertices (0, 0) (3, 4) 5 2)[k]? = some a →
            (redistribute_vertices (0, 0) (3, 4) 5 2)[k + 1]? = some b →
            dist2 a b = (5 : ℚ) ^ 2 / ((numVerts 5 2 : ℚ)) ^ 2)) :=
  ⟨by norm_num [dist2], C8_redistribute (0, 0) (3, 4) 5 2 (by norm_num [dist2])⟩

/-- A two-point line segment. -/
abbrev Seg := Pt × Pt

/-- Twice the signed area of the triangle `a b c`. -/
def orient2 (a b c : Pt) : ℚ :=
  (b.1 - a.1) * (c.2 - a.2) - (b.2 - a.2) * (c.1 - a.1)

/-- For `c` collinear with `a b`: does `c` lie inside the bounding box
of the segment (hence on it)? -/
def onSeg (a b c : Pt) : Bool :=
  decide (min a.1 b.1 ≤ c.1) && decide (c.1 ≤ max a.1 b.1)
    && decide (min a.2 b.2 ≤ c.2) && decide (c.2 ≤ max a.2 b.2)

/-- Closed-segment intersection by the standard orientation test. -/
def segIntersect (s t : Seg) : Bool :=
  let o1 := orient2 s.1 s.2 t.1
  let o2 := orient2 s.1 s.2 t.2
  let o3 := orient2 t.1 t.2 s.1
  let o4 := orient2 t.1 t.2 s.2
  (((decide (0 < o1) && decide (o2 < 0)) || (decide (o1 < 0) && decide (0 < o2)))
      && ((decide (0 < o3) && decide (o4 < 0)) || (decide (o3 < 0) && decide (0 < o4))))
    || (decide (o1 = 0) && onSeg s.1 s.2 t.1)
    || (decide (o2 = 0) && onSeg s.1 s.2 t.2)
    || (decide (o3 = 0) && onSeg t.1 t.2 s.1)
    || (decide (o4 = 0) && onSeg t.1 t.2 s.2)

/-- Squared distance from a point `r` to the closed segment `a b`
(clamped orthogonal projection). -/
def pointSegDist2 (r a b : Pt) : ℚ :=
  let den := dist2 a b
  if den = 0 then dist2 r a
  else
    let t := ((r.1 - a.1) * (b.1 - a.1) + (r.2 - a.2) * (b.2 - a.2)) / den
    dist2 r (interpolateSeg a b (max 0 (min 1 t)))

/-- Squared Euclidean distance between two closed segments: zero when
they intersect, otherwise the minimum of the four endpoint-to-segment
distances. -/
def segSegDist2 (s t : Seg) : ℚ :=
  if segIntersect s t then 0
  else
    min (min (pointSegDist2 t.1 s.1 s.2) (pointSegDist2 t.2 s.1 s.2))
        (min (pointSegDist2 s.1 t.1 t.2) (pointSegDist2 s.2 t.1 t.2))

/-- `lns_sub.buffer(line_dist)` (qaqc.py line 374) produces the closed
`r`-neighborhood of each segment; two such buffers intersect exactly
when the segments are within distance `2r` of each other.  This is the
edge relation whose connected components the union-and-explode step
(`union_all().explode()`) turns into Action polygons, each buffer being
itself connected. -/
def buffersOverlap (r : ℚ) (s t : Seg) : Bool :=
  decide (segSegDist2 s t ≤ (2 * r) ^ 2)

/-- One expansion step of reachability along the edge relation `adj`. -/
def stepReach (n : ℕ) (adj : Fin n → Fin n → Bool) (S : List (Fin n)) :
    List (Fin n) :=
  (List.finRange n).filter fun j => decide (j ∈ S) || S.any fun i => adj i j

/-- All vertices reachable from `i`: `n` expansion steps saturate any
reachable set in a graph on `n` vertices. -/
def reachSet (n : ℕ) (adj : Fin n → Fin n → Bool) (i : Fin n) :
    List (Fin n) :=
  (stepReach n adj)^[n] [i]

/-- `j` lies in the connected component of `i`. -/
def sameReach (n : ℕ) (adj : Fin n → Fin n → Bool) (i j : Fin n) : Bool :=
  decide (j ∈ reachSet n adj i)

/-- Two segments of one (incident, category) set end up in the same
Action exactly when they lie in the same connected component of the
unioned buffer polygon, i.e. of the buffer-overlap graph
(qaqc.py lines 374-377). -/
def sameAction (segs : List Seg) (r : ℚ) (i j : Fin segs.length) : Bool :=
  sameReach segs.length (fun a b => buffersOverlap r (segs.get a) (segs.get b)) i j

/-- An expansion step keeps every current member. -/
theorem mem_stepReach_of_mem {n : ℕ} (adj : Fin n → Fin n → Bool)
    {S : List (Fin n)} {j : Fin n} (hj : j ∈ S) : j ∈ stepReach n adj S := by
  refine List.mem_filter.mpr ⟨List.mem_finRange j, ?_⟩
  simp [hj]

/-- Iterated expansion keeps every current member. -/
theorem mem_iterate_stepReach_of_mem {n : ℕ} (adj : Fin n → Fin n → Bool)
    (m : ℕ) {S : List (Fin n)} {j : Fin n} (hj : j ∈ S) :
    j ∈ (stepReach n adj)^[m] S := by
  induction m generalizing S with
  | zero => exact hj
  | succ m ih =>
    rw [Function.iterate_succ_apply]
    exact ih (mem_stepReach_of_mem adj hj)

/-- An expansion step adds every out-neighbor of a current member. -/
theorem mem_stepReach_of_edge {n : ℕ} (adj : Fin n → Fin n → Bool)
    {S : List (Fin n)} {i j : Fin n} (hi : i ∈ S) (hadj : adj i j = true) :
    j ∈ stepReach n adj S := by
  refine List.mem_filter.mpr ⟨List.mem_finRange j, ?_⟩
  have : S.any (fun i2 => adj i2 j) = true := List.any_eq_true.mpr ⟨i, hi, hadj⟩
  simp [this]

/-- A direct edge puts the target into the reachable set. -/
theorem mem_reachSet_of_edge {n : ℕ} (adj : Fin n → Fin n → Bool)
    (i j : Fin n) (hadj : adj i j = true) : j ∈ reachSet n adj i := by
  have hpos : 0 < n := i.pos
  obtain ⟨m, rfl⟩ : ∃ m, n = m + 1 := ⟨n - 1, by omega⟩
  rw [reachSet, Function.iterate_succ_apply]
  exact mem_iterate_stepReach_of_mem adj m
    (mem_stepReach_of_edge adj (List.mem_singleton_self i) hadj)

/-- A two-edge chain also puts the far endpoint into the reachable set
(needs at least two expansion steps, hence `2 ≤ n`). -/
theorem mem_reachSet_of_chain2 {n : ℕ} (adj : Fin n → Fin n → Bool)
    (i k j : Fin n) (hn : 2 ≤ n) (h1 : adj i k = true) (h2 : adj k j = true) :
    j ∈ reachSet n adj i := by
  obtain ⟨m, rfl⟩ : ∃ m, n = m + 2 := ⟨n - 2, by omega⟩
  rw [reachSet]
  show j ∈ (stepReach (m + 2) adj)^[(m + 1) + 1] [i]
  rw [Function.iterate_succ_apply, Function.iterate_succ_apply]
  exact mem_iterate_stepReach_of_mem adj m
    (mem_stepReach_of_edge adj
      (mem_stepReach_of_edge adj (List.mem_singleton_self i) h1) h2)

/-- C6 (amended): two segments whose `line_dist` buffers overlap are
always placed in the same Action; but buffer-disjoint segments are NOT
always in different Actions — Actions are the connected components of
the buffer-overlap graph, so a chain of pairwise-overlapping segments
merges segments that are arbitrarily far apart (see the
counterexample). -/
theorem C6_overlap_same_action (segs : List Seg) (r : ℚ)
    (i j : Fin segs.length)
    (hov : buffersOverlap r (segs.get i) (segs.get j) = true) :
    sameAction segs r i j = true := by
  unfold sameAction sameReach
  exact decide_eq_true (mem_reachSet_of_edge _ i j hov)

/-- C6 witness: two nearby horizontal segments (gap 30 ≤ 2·25). -/
theorem C6_overlap_same_action_witness :
    buffersOverlap 25 (((0 : ℚ), (0 : ℚ)), ((10 : ℚ), (0 : ℚ)))
        (((40 : ℚ), (0 : ℚ)), ((50 : ℚ), (0 : ℚ))) = true
      ∧ sameAction [(((0 : ℚ), (0 : ℚ)), ((10 : ℚ), (0 : ℚ))),
          (((40 : ℚ), (0 : ℚ)), ((50 : ℚ), (0 : ℚ)))] 25
          ⟨0, by norm_num⟩ ⟨1, by norm_num⟩ = true := by
  have hov : buffersOverlap 25 (((0 : ℚ), (0 : ℚ)), ((10 : ℚ), (0 : ℚ)))
      (((40 : ℚ), (0 : ℚ)), ((50 : ℚ), (0 : ℚ))) = true := by
    norm_num [buffersOverlap, segSegDist2, segIntersect, orient2, onSeg,
      pointSegDist2, dist2, interpolateSeg]
  exact ⟨hov, C6_overlap_same_action _ 25 _ _ hov⟩

/-- Chain of three collinear segments: consecutive gaps 30 (buffers of
radius 25 overlap), outer gap 70 (buffers disjoint). -/
def c6segs : List Seg :=
  [(((0 : ℚ), (0 : ℚ)), ((10 : ℚ), (0 : ℚ))),
   (((40 : ℚ), (0 : ℚ)), ((50 : ℚ), (0 : ℚ))),
   (((80 : ℚ), (0 : ℚ)), ((90 : ℚ), (0 : ℚ)))]

/-- C6 counterexample: segments 0 and 2 are 70 apart — farther than
`2 · line_dist = 50`, so their buffers are disjoint — yet they land in
the same Action, because segment 1 overlaps both and the unioned
buffers form one connected component. -/
theorem C6_cex :
    (2 * 25 : ℚ) ^ 2
        < segSegDist2 (c6segs.get ⟨0, by decide⟩) (c6segs.get ⟨2, by decide⟩)
      ∧ sameAction c6segs 25 ⟨0, by decide⟩ ⟨2, by decide⟩ = true := by
  constructor
  · show (2 * 25 : ℚ) ^ 2
        < segSegDist2 (((0 : ℚ), (0 : ℚ)), ((10 : ℚ), (0 : ℚ)))
            (((80 : ℚ), (0 : ℚ)), ((90 : ℚ), (0 : ℚ)))
    norm_num [segSegDist2, segIntersect, orient2, onSeg, pointSegDist2,
      dist2, interpolateSeg]
  · unfold sameAction sameReach
    apply decide_eq_true
    apply mem_reachSet_of_chain2 _ _ ⟨1, by decide⟩ _ (by decide)
    · show buffersOverlap 25 (((0 : ℚ), (0 : ℚ)), ((10 : ℚ), (0 : ℚ)))
          (((40 : ℚ), (0 : ℚ)), ((50 : ℚ), (0 : ℚ))) = true
      norm_num [buffersOverlap, segSegDist2, segIntersect, orient2, onSeg,
        pointSegDist2, dist2, interpolateSeg]
    · show buffersOverlap 25 (((40 : ℚ), (0 : ℚ)), ((50 : ℚ), (0 : ℚ)))
          (((80 : ℚ), (0 : ℚ)), ((90 : ℚ), (0 : ℚ))) = true
      norm_num [buffersOverlap, segSegDist2, segIntersect, orient2, onSeg,
        pointSegDist2, dist2, interpolateSeg]

/-- One raw operations line feature with the attributes `_average_lines`
reads: `IncidentName`, `FeatureCategory`, `DeleteThis`, and its segment
geometry. -/
structure LineRec where
  incidentName : String
  featureCategory : String
  deleteThis : String
  seg : Seg

/-- `lns_sub` (qaqc.py line 372): the lines of category `fc`
contributing to incident `id`. -/
def selectLines (lines : List LineRec) (fc id : String) : List LineRec :=
  lines.filter fun l =>
    selectLine l.featureCategory l.deleteThis l.incidentName fc id

/-- The Actions of one category selection: the connected components of
the buffer-overlap graph of the selected segments — the polygons that
`union_all().explode()` produces (qaqc.py lines 374-376), listed by
first-appearance representative, each with its member lines. -/
def componentsOf (ls : List LineRec) (r : ℚ) : List (List LineRec) :=
  ((List.finRange ls.length).foldl
    (fun acc i =>
      if acc.any fun c => c.contains i then acc
      else acc ++ [(List.finRange ls.length).filter fun j =>
        sameReach ls.length
          (fun a b => buffersOverlap r (ls.get a).seg (ls.get b).seg) i j])
    []).map fun c => c.map fun i => ls.get i

/-- The literal all-zero metrics row of the `else` branch of
`_average_lines` (qaqc.py lines 424-434). -/
def zeroMetrics : Metrics :=
  { HTr := some 0, TR := some 0, Er := some 0, HER := some 0,
    BTR := some 0, NeTr := some 0, PrAr := some 0 }

/-- One iteration of the per-incident loop of `_average_lines`
(qaqc.py lines 363-435): collect the Action clusters over every
category; if none exist (`len(fc_lst) == 0`), append the literal
all-zero metrics row, otherwise label the consolidated lines with
`_label_control` and compute `_get_metrics`.  The geometry of each
cluster's averaged centerline relative to the perimeter is supplied by
the trusted geometric layer as the piece view `avgView` (the averaging
arithmetic itself is modelled and verified on the single-segment case
above). -/
def incidentRow (lines : List LineRec) (cats : List String) (id : String)
    (r d fperm farea : ℚ)
    (avgView : String → List LineRec → List Piece) : Metrics :=
  let clusters := cats.flatMap fun fc =>
    (componentsOf (selectLines lines fc id) r).map fun comp => (fc, comp)
  if clusters.isEmpty then zeroMetrics
  else
    getMetrics
      (label_control (clusters.flatMap fun pr => avgView pr.1 pr.2) d)
      fperm farea

/-- `_average_lines` appends exactly one metrics row to `perm_list` per
perimeter row, in both branches; an incident is `(key, perimeter length,
perimeter area)`. -/
def average_lines_rows (incidents : List (String × ℚ × ℚ))
    (lines : List LineRec) (cats : List String) (r d : ℚ)
    (avgView : String → List LineRec → List Piece) : List Metrics :=
  incidents.map fun inc => incidentRow lines cats inc.1 r d inc.2.1 inc.2.2 avgView

/-- There are no Actions over an empty selection. -/
theorem componentsOf_nil (r : ℚ) : componentsOf [] r = [] := rfl

/-- C7: the pipeline emits one metrics row per incident, and an incident
with no contributing line features in any category gets the literal
all-zero row — all seven ratios are `0` — rather than an omitted row or
an exception. -/
theorem C7_zero_line_incident (incidents : List (String × ℚ × ℚ))
    (lines : List LineRec) (cats : List String) (r d : ℚ)
    (avgView : String → List LineRec → List Piece) (id : String)
    (fperm farea : ℚ)
    (hempty : ∀ fc, selectLines lines fc id = []) :
    (average_lines_rows incidents lines cats r d avgView).length
        = incidents.length
      ∧ incidentRow lines cats id r d fperm farea avgView = zeroMetrics := by
  constructor
  · simp [average_lines_rows]
  · have hcl : (cats.flatMap fun fc =>
        (componentsOf (selectLines lines fc id) r).map fun comp => (fc, comp))
        = [] := by
      simp [hempty, componentsOf_nil]
    simp only [incidentRow, hcl]
    simp

/-- The single line of the C7 witness, attributed to incident `ALPHA`. -/
def c7lines : List LineRec :=
  [⟨"ALPHA", "Completed Dozer Line", "No",
    (((0 : ℚ), (0 : ℚ)), ((10 : ℚ), (0 : ℚ)))⟩]

/-- C7 witness: incident `ZULU` has no matching lines and still receives
the all-zero row, as one of the emitted rows. -/
theorem C7_zero_line_incident_witness :
    (∀ fc, selectLines c7lines fc "ZULU" = [])
      ∧ ((average_lines_rows [("ZULU", 4, 2)] c7lines ["Completed Dozer Line"]
            25 50 fun _ _ => []).length = 1
        ∧ incidentRow c7lines ["Completed Dozer Line"] "ZULU" 25 50 4 2
            (fun _ _ => []) = zeroMetrics) := by
  have hci : strContainsCI "ALPHA" "ZULU" = false := by decide
  have hemp : ∀ fc, selectLines c7lines fc "ZULU" = [] := by
    intro fc
    simp [c7lines, selectLines, selectLine, hci]
  exact ⟨hemp,
    C7_zero_line_incident [("ZULU", 4, 2)] c7lines ["Completed Dozer Line"]
      25 50 (fun _ _ => []) "ZULU" 4 2 hemp⟩

/-- Python `str()` of a list of strings: `repr` brackets with
single-quoted elements, e.g. `str(["None"])` is `"['None']"`. -/
def pyStrOfList (l : List String) : String :=
  "[" ++ String.intercalate ", " (l.map fun s => "\x27" ++ s ++ "\x27") ++ "]"

/-- The ratio-out-of-range flag text (4_FLEMetrics.py line 444). -/
def ratioFlagText : String :=
  "HTR ER HER BTR or NETR fall outside of possible range"

/-- The combined flag text (4_FLEMetrics.py line 451). -/
def bothFlagText : String :=
  "Check data as TR value is extreme. Also, HTR ER HER BTR or NETR fall outside of possible range. "

/-- The TR-extreme flag text (4_FLEMetrics.py line 455). -/
def trFlagText : String := "Check data as TR value is in top 95 percentile."

/-- The anomaly-flag logic of `Tool/4_FLEMetrics.py` lines 424-456 for
the single metrics row: initialize `FLE_Flag` to `"None"`; set the
range text when any of HTR, ER, HER, BTR, NETR leaves `[0,1]`; then read
the flag column into the Python *list* `FlagFieldValue` (line 448) and
compare `str(FlagFieldValue)` — the string form of that list — against
the bare texts before setting the TR flags (lines 450, 454);
`TR > 3.25` is the extreme threshold. -/
def fle_Flag (HTRv TRv ERv HERv BTRv NETRv : ℚ) : String :=
  let flag1 := "None"
  let flag2 :=
    if HTRv > 1 ∨ ERv > 1 ∨ HERv > 1 ∨ BTRv > 1 ∨ NETRv > 1
        ∨ HTRv < 0 ∨ ERv < 0 ∨ HERv < 0 ∨ BTRv < 0 ∨ NETRv < 0 then
      ratioFlagText
    else flag1
  let flagFieldValue := [flag2]
  let flag3 :=
    if pyStrOfList flagFieldValue = ratioFlagText ∧ TRv > 13/4 then
      bothFlagText
    else flag2
  let flag4 :=
    if pyStrOfList flagFieldValue = "None" ∧ TRv > 13/4 then
      trFlagText
    else flag3
  flag4

/-- C4 (evaluation at the failing input): with `TR = 4 > 3.25` and all
bounded ratios inside `[0,1]`, `FLE_Flag` remains `"None"` — the
TR-extreme branch never fires, because `str(FlagFieldValue)` is the
string form of a Python list (`"['None']"`), which never equals the
bare strings compared against.  For the same reason the combined text
never appears when both conditions hold: the second conjunct shows the
flag stays at the range text alone. -/
theorem C4_flag_eval :
    fle_Flag (1/2) 4 (1/2) (1/2) (1/4) (1/4) = "None"
      ∧ fle_Flag 2 4 (1/2) (1/2) (1/4) (1/4) = ratioFlagText
      ∧ pyStrOfList ["None"] ≠ "None"
      ∧ pyStrOfList [ratioFlagText] ≠ ratioFlagText := by
  have hs1 : pyStrOfList ["None"] ≠ ratioFlagText := by decide
  have hs2 : pyStrOfList ["None"] ≠ "None" := by decide
  have hs3 : pyStrOfList [ratioFlagText] ≠ ratioFlagText := by decide
  have hs4 : pyStrOfList [ratioFlagText] ≠ "None" := by decide
  refine ⟨?_, ?_, hs2, hs3⟩
  · norm_num [fle_Flag, hs1, hs2]
  · norm_num [fle_Flag, hs3, hs4]
